import Mathlib

/-!
Verification of the currency-conversion backend (`backend/app.py`).

Shallow embedding notes:
* Python `Decimal` values are modelled as exact rationals (`ℚ`); the source
  keeps all arithmetic in decimal until the final 4-digit quantization, and
  the claims speak about exact decimal arithmetic pre-rounding.
* The DynamoDB `Rates` table is modelled as a list of `RateRecord`s; a
  `get_item` by key is a `find?` on the `base` field.
* The final `float(...)` coercions applied when serializing the JSON body
  are abstracted away: payload numbers stay exact rationals.
* Store reads are tracked explicitly by `compute_rateT` / `lambda_handlerT`,
  which return the list of keys passed to `get_item` in call order.
-/

namespace CurrencyConverter

/-- Uppercase a string character-by-character; models Python `str.upper()`
(restricted to the simple per-character case, which covers ASCII currency
codes and arbitrary query text alike in this embedding). -/
def upcase (s : String) : String :=
  String.mk (s.data.map Char.toUpper)

/-- A row of the `Rates` table:
`{ "base": ..., "rates": {...}, "asOf": ... }`.
`rates` is optional because `compute_rate` explicitly checks
`"rates" in item`; the mapping itself is an association list keyed by
currency code. The `cachedAt` attribute is never read by the handler and is
omitted. -/
structure RateRecord where
  base : String
  rates : Option (List (String × ℚ))
  asOf : Option String
  deriving Repr, DecidableEq

/-- The `Rates` table contents. -/
abbrev Store := List RateRecord

/-- First value bound to key `cur` in a rates mapping; models
`item["rates"][cur]` guarded by `cur in item["rates"]`. -/
def lookupRate : List (String × ℚ) → String → Option ℚ
  | [], _ => none
  | (k, v) :: rest, cur => if k = cur then some v else lookupRate rest cur

/-- Function `get_rates_for_base`: point read of the table at key
`base.upper()`. -/
def get_rates_for_base (store : Store) (base : String) : Option RateRecord :=
  store.find? (fun rec => rec.base = upcase base)

/-- The resolver output dictionary
`{ "rate", "asOf", "provenance", "baseUsed" }` built by `compute_rate`. -/
structure RateResolution where
  rate : ℚ
  asOf : Option String
  provenance : String
  baseUsed : String
  deriving Repr, DecidableEq

/-- Multiplication on ℚ, implemented on numerators and denominators so the
kernel can evaluate it (`Rat.mul` in the library is `@[irreducible]`).
`qmul_eq` proves it is exactly `a * b`. -/
def qmul (a b : ℚ) : ℚ :=
  Rat.divInt (a.num * b.num) ((a.den : Int) * (b.den : Int))

/-- Division on ℚ, implemented on numerators and denominators so the kernel
can evaluate it. `qdiv_eq` proves it is exactly `a / b` (with the usual
`x / 0 = 0` convention of the library). -/
def qdiv (a b : ℚ) : ℚ :=
  Rat.divInt (a.num * (b.den : Int)) ((a.den : Int) * b.num)

/-- Strategy 1 of `compute_rate`: the body of
`if item_from and "rates" in item_from and to_cur in item_from["rates"]`. -/
def directResult (item : Option RateRecord) (from_cur to_cur : String) :
    Option RateResolution :=
  match item with
  | none => none
  | some it =>
    match it.rates with
    | none => none
    | some rs =>
      match lookupRate rs to_cur with
      | none => none
      | some r => some ⟨r, it.asOf, "direct", from_cur⟩

/-- Strategy 2 of `compute_rate`: cross-rate through the canonical base,
`rate = rates[to] / rates[from]`, falling through when `rates[from] == 0`. -/
def crossResult (item : Option RateRecord) (canonical from_cur to_cur : String) :
    Option RateResolution :=
  match item with
  | none => none
  | some it =>
    match it.rates with
    | none => none
    | some rs =>
      match lookupRate rs from_cur, lookupRate rs to_cur with
      | some rate_from, some rate_to =>
        if rate_from ≠ 0 then
          some ⟨qdiv rate_to rate_from, it.asOf, "cross", canonical⟩
        else none
      | _, _ => none

/-- Strategy 3 of `compute_rate`: inverse through the record for `to_cur`,
`rate = 1 / r`, yielding nothing when `r == 0`. -/
def inverseResult (item : Option RateRecord) (from_cur to_cur : String) :
    Option RateResolution :=
  match item with
  | none => none
  | some it =>
    match it.rates with
    | none => none
    | some rs =>
      match lookupRate rs from_cur with
      | none => none
      | some r =>
        if r ≠ 0 then some ⟨qdiv 1 r, it.asOf, "inverse", to_cur⟩
        else none

/-- Function `compute_rate(from_cur, to_cur)`: uppercases both codes, then tries the
direct, cross and inverse strategies in order, first success wins.
`canonical` is the `CANONICAL_BASE` environment value (default `"USD"`). -/
def compute_rate (store : Store) (canonical from_cur to_cur : String) :
    Option RateResolution :=
  match directResult (get_rates_for_base store (upcase from_cur))
      (upcase from_cur) (upcase to_cur) with
  | some res => some res
  | none =>
    match crossResult (get_rates_for_base store canonical) canonical
        (upcase from_cur) (upcase to_cur) with
    | some res => some res
    | none =>
      inverseResult (get_rates_for_base store (upcase to_cur))
        (upcase from_cur) (upcase to_cur)

/-- Variant of `compute_rate` instrumented with the list of keys passed to
`get_item` (each already uppercased, as `get_rates_for_base` does), in the
order the source performs the reads: the direct read always happens; the
canonical-base read happens only if direct fails; the `to_cur` read happens
only if cross also fails. -/
def compute_rateT (store : Store) (canonical from_cur to_cur : String) :
    Option RateResolution × List String :=
  match directResult (get_rates_for_base store (upcase from_cur))
      (upcase from_cur) (upcase to_cur) with
  | some res => (some res, [upcase (upcase from_cur)])
  | none =>
    match crossResult (get_rates_for_base store canonical) canonical
        (upcase from_cur) (upcase to_cur) with
    | some res => (some res, [upcase (upcase from_cur), upcase canonical])
    | none =>
      (inverseResult (get_rates_for_base store (upcase to_cur))
         (upcase from_cur) (upcase to_cur),
       [upcase (upcase from_cur), upcase canonical, upcase (upcase to_cur)])

/-- Function `_round4`: quantize to 4 fractional digits with `ROUND_HALF_UP`
(round half away from zero). For `x ≥ 0` this is `⌊x·10⁴ + 1/2⌋ / 10⁴`
(`round4_eq_floor`), and for `x < 0` the mirror image; written on
numerators and denominators (`x·10⁴ + 1/2 = (2·10⁴·num + den)/(2·den)`) so
the kernel can evaluate it. -/
def round4 (x : ℚ) : ℚ :=
  if 0 ≤ x then
    Rat.divInt ((Rat.divInt (20000 * x.num + (x.den : Int))
      (2 * (x.den : Int))).floor) 10000
  else
    -(Rat.divInt ((Rat.divInt (20000 * (-x.num) + (x.den : Int))
      (2 * (x.den : Int))).floor) 10000)

/-- Numeric value of a decimal digit character. -/
def digitVal (c : Char) : Nat := c.toNat - 48

/-- Value of a digit string, most significant first. -/
def digitsToNat (ds : List Char) : Nat :=
  ds.foldl (fun acc c => 10 * acc + digitVal c) 0

/-- Consume an optional leading sign; returns (isNegative, rest). -/
def parseSign : List Char → Bool × List Char
  | '-' :: rest => (true, rest)
  | '+' :: rest => (false, rest)
  | cs => (false, cs)

/-- Parse the part after `e`/`E`: an optionally signed digit string that
must use up the whole remaining input. -/
def parseExpPart (cs : List Char) : Option Int :=
  let sgn := parseSign cs
  let ds := sgn.2.span Char.isDigit
  if ds.1 = [] ∨ ds.2 ≠ [] then none
  else some (if sgn.1 then -(digitsToNat ds.1 : Int) else (digitsToNat ds.1 : Int))

/-- Strip whitespace from both ends of a character list. -/
def trimChars (cs : List Char) : List Char :=
  ((cs.dropWhile Char.isWhitespace).reverse.dropWhile Char.isWhitespace).reverse

/-- Models `Decimal(str(x))` applied to the (string) query parameter: the
Python `Decimal` string constructor restricted to finite numerals —
optional surrounding whitespace, optional sign, integer digits and/or a
fractional part separated by `.`, optional `e`/`E` exponent. The special
values `NaN`/`Infinity` and digit-group underscores are not modelled and
parse as failures (for `NaN` the observable handler outcome is the same
400 response, since comparing a `NaN` raises inside the same `try`). -/
def parseDecimal (s : String) : Option ℚ :=
  let cs := trimChars s.data
  let sgn := parseSign cs
  let ip := sgn.2.span Char.isDigit
  let fpart : List Char × List Char :=
    match ip.2 with
    | '.' :: rest => rest.span Char.isDigit
    | _ => ([], ip.2)
  let fp := fpart.1
  let rest := fpart.2
  if ip.1 = [] ∧ fp = [] then none
  else
    let e? : Option Int :=
      match rest with
      | [] => some 0
      | 'e' :: tail => parseExpPart tail
      | 'E' :: tail => parseExpPart tail
      | _ => none
    match e? with
    | none => none
    | some e =>
      let m : Int := (digitsToNat (ip.1 ++ fp) : Int)
      let signed : Int := if sgn.1 then -m else m
      let eAdj : Int := e - (fp.length : Int)
      some (if 0 ≤ eAdj then Rat.divInt (signed * 10 ^ eAdj.toNat) 1
            else Rat.divInt signed (10 ^ (-eAdj).toNat))

/-- The three query parameters of the inbound event
(`event["queryStringParameters"]`), each possibly absent. -/
structure Event where
  fromParam : Option String
  toParam : Option String
  amountParam : Option String
  deriving Repr, DecidableEq

/-- Which validation failure a 400 response reports (spec taxonomy names;
the source carries them as the four distinct error message strings). -/
inductive ValidationKind where
  | missing_params
  | bad_currency_code
  | bad_amount
  | negative_amount
  deriving Repr, DecidableEq

/-- The JSON body of a 200 response. `baseUsed` is `none` for the identity
short-circuit, whose body has no `baseUsed` field. Numbers are kept as the
exact rationals the source rounds from (the trailing `float(...)`
coercions are abstracted). -/
structure SuccessPayload where
  fromCur : String
  toCur : String
  amount : ℚ
  rate : ℚ
  result : ℚ
  asOf : Option String
  provenance : String
  baseUsed : Option String
  deriving Repr, DecidableEq

/-- Handler outcome: 400 validation error, 404 unavailable (with its error
and hint strings), or 200 success. -/
inductive LambdaResponse where
  | validationError (kind : ValidationKind)
  | unavailable (errorMsg : String) (hint : String)
  | ok (payload : SuccessPayload)
  deriving Repr, DecidableEq

/-- A single-quote character, used when rebuilding the 404 hint string. -/
def sq : String := (Char.ofNat 39).toString

/-- The 404 error message
`f"Cannot compute \x7bfrom_cur\x7d->\x7bto_cur\x7d from cached rates only"`. -/
def unavailMsg (from_cur to_cur : String) : String :=
  "Cannot compute " ++ from_cur ++ "->" ++ to_cur ++ " from cached rates only"

/-- The 404 hint naming the record shapes that would satisfy direct or
cross resolution. -/
def unavailHint (canonical from_cur to_cur : String) : String :=
  "Ensure Rates table has base=" ++ sq ++ from_cur ++ sq ++ " with " ++ sq ++
    to_cur ++ sq ++ " in rates OR base=" ++ sq ++ canonical ++ sq ++
    " with both " ++ sq ++ from_cur ++ sq ++ " and " ++ sq ++ to_cur ++ sq ++
    " present."

/-- Function `lambda_handler`, instrumented with the list of store keys read.
Faithful to the source order: missing-params check, 3-letter check, decimal
parse (`bad_amount` on failure), negativity check, identity short-circuit,
then `compute_rate`; 404 when the resolver yields nothing, else 200 with
`rate` and `result = amount * rate` each quantized by `round4`.
(The source reads `amount_raw` before the missing-params test; matching on
it first is observationally identical since `amount_raw is None` is part of
that test. The local bindings `from_cur`/`to_cur` of the source for the
uppercased parameters are inlined.) -/
def lambda_handlerT (ev : Event) (store : Store) (canonical : String) :
    LambdaResponse × List String :=
  match ev.amountParam with
  | none => (.validationError .missing_params, [])
  | some amount_raw =>
    if upcase (ev.fromParam.getD "") = "" ∨ upcase (ev.toParam.getD "") = ""
    then (.validationError .missing_params, [])
    else if (upcase (ev.fromParam.getD "")).length ≠ 3 ∨
        (upcase (ev.toParam.getD "")).length ≠ 3 then
      (.validationError .bad_currency_code, [])
    else
      match parseDecimal amount_raw with
      | none => (.validationError .bad_amount, [])
      | some amount =>
        if amount < 0 then (.validationError .negative_amount, [])
        else if upcase (ev.fromParam.getD "") = upcase (ev.toParam.getD "")
        then
          (.ok ⟨upcase (ev.fromParam.getD ""), upcase (ev.toParam.getD ""),
                amount, 1, round4 amount, none, "identity", none⟩, [])
        else
          match compute_rateT store canonical (upcase (ev.fromParam.getD ""))
              (upcase (ev.toParam.getD "")) with
          | (none, reads) =>
            (.unavailable
               (unavailMsg (upcase (ev.fromParam.getD ""))
                 (upcase (ev.toParam.getD "")))
               (unavailHint canonical (upcase (ev.fromParam.getD ""))
                 (upcase (ev.toParam.getD ""))), reads)
          | (some ri, reads) =>
            (.ok ⟨upcase (ev.fromParam.getD ""), upcase (ev.toParam.getD ""),
                  amount, round4 ri.rate, round4 (qmul amount ri.rate),
                  ri.asOf, ri.provenance, some ri.baseUsed⟩, reads)

/-- Response component of the handler alone. -/
def lambda_handler (ev : Event) (store : Store) (canonical : String) :
    LambdaResponse :=
  (lambda_handlerT ev store canonical).1

/-! ### Bridge lemmas: the kernel-evaluable arithmetic is the real ℚ
arithmetic -/

theorem qmul_eq (a b : ℚ) : qmul a b = a * b := by
  rw [qmul, Rat.divInt_eq_div]
  push_cast
  rw [← div_mul_div_comm, Rat.num_div_den, Rat.num_div_den]

theorem qdiv_eq (a b : ℚ) : qdiv a b = a / b := by
  rw [qdiv, Rat.divInt_eq_div]
  push_cast
  rcases eq_or_ne b 0 with rfl | hb
  · simp
  · have hbn : (b.num : ℚ) ≠ 0 := by
      exact_mod_cast Rat.num_ne_zero.mpr hb
    have hbd : (b.den : ℚ) ≠ 0 := by
      exact_mod_cast b.den_ne_zero
    have had : (a.den : ℚ) ≠ 0 := by
      exact_mod_cast a.den_ne_zero
    conv_rhs => rw [← Rat.num_div_den a, ← Rat.num_div_den b]
    field_simp

theorem ratFloor_eq_intFloor (q : ℚ) : q.floor = ⌊q⌋ := by
  rw [Rat.floor_def', Rat.floor_def]

theorem round4_eq_floor (x : ℚ) (hx : 0 ≤ x) :
    round4 x = (⌊x * 10000 + 1 / 2⌋ : ℚ) / 10000 := by
  have hd : ((x.den : ℚ)) ≠ 0 := by exact_mod_cast x.den_ne_zero
  have hnum : (x.num : ℚ) = x * (x.den : ℚ) := by
    have h := Rat.num_div_den x
    rwa [div_eq_iff hd] at h
  have harg : (Rat.divInt (20000 * x.num + (x.den : Int))
      (2 * (x.den : Int)) : ℚ) = x * 10000 + 1 / 2 := by
    rw [Rat.divInt_eq_div]
    push_cast
    rw [div_eq_iff (by positivity)]
    rw [hnum]
    ring
  rw [round4, if_pos hx, Rat.divInt_eq_div, ratFloor_eq_intFloor, harg]
  norm_num

theorem compute_rateT_fst (store : Store) (canonical from_cur to_cur : String) :
    (compute_rateT store canonical from_cur to_cur).1 =
      compute_rate store canonical from_cur to_cur := by
  unfold compute_rateT compute_rate
  cases hd : directResult (get_rates_for_base store (upcase from_cur))
      (upcase from_cur) (upcase to_cur) with
  | some res => simp [hd]
  | none =>
    cases hc : crossResult (get_rates_for_base store canonical) canonical
        (upcase from_cur) (upcase to_cur) with
    | some res => simp [hd, hc]
    | none => simp [hd, hc]

/-! ### Claim theorems -/

/-- C1: for every store state and every normalized pair of distinct
3-letter codes, if the store has a record for base = `from_cur` whose rate
mapping contains `to_cur`, then resolution succeeds with provenance
`direct`, the stored rate verbatim, `baseUsed = from_cur`, and `asOf`
copied from that record — for every store, hence regardless of whether
cross (canonical-base) or inverse (base = `to_cur`) data also exists. -/
theorem direct_precedence (store : Store) (canonical from_cur to_cur : String)
    (item : RateRecord) (rs : List (String × ℚ)) (r : ℚ)
    (hfrom : upcase from_cur = from_cur) (hto : upcase to_cur = to_cur)
    (hlen1 : from_cur.length = 3) (hlen2 : to_cur.length = 3)
    (hne : from_cur ≠ to_cur)
    (hget : get_rates_for_base store from_cur = some item)
    (hrates : item.rates = some rs)
    (hlook : lookupRate rs to_cur = some r) :
    compute_rate store canonical from_cur to_cur =
      some ⟨r, item.asOf, "direct", from_cur⟩ := by
  unfold compute_rate
  simp only [hfrom, hto]
  simp [directResult, hget, hrates, hlook]

/-- Witness for C1: a store where direct (`USD` record with `EUR`), cross
(the canonical `USD` record holds both codes is impossible here, but an
inverse `EUR` record with `USD` exists) data coexist; the `USD`→`EUR`
resolution is the stored `0.92` with provenance `direct`. -/
theorem direct_precedence_witness :
    compute_rate
      [⟨"USD", some [("EUR", Rat.divInt 92 100)], some "2024-01-01T00:00:00Z"⟩,
       ⟨"EUR", some [("USD", 2)], some "other"⟩]
      "USD" "USD" "EUR" =
      some ⟨Rat.divInt 92 100, some "2024-01-01T00:00:00Z", "direct", "USD"⟩ :=
  direct_precedence _ _ _ _
    ⟨"USD", some [("EUR", Rat.divInt 92 100)], some "2024-01-01T00:00:00Z"⟩
    [("EUR", Rat.divInt 92 100)] (Rat.divInt 92 100)
    (by decide) (by decide) (by decide) (by decide) (by decide)
    (by decide) (by decide) (by decide)

/-- C2: when no direct record for `from_cur` yields `to_cur`, but the
canonical-base record maps both codes (`from_cur ↦ f`, `to_cur ↦ t`), then
with `f ≠ 0` resolution succeeds with rate exactly `t / f` (exact rational
arithmetic, pre-rounding), provenance `cross`, `baseUsed` = the canonical
base, `asOf` from that record; with `f = 0` the cross strategy yields
nothing and resolution falls through to the inverse strategy. -/
theorem cross_correctness (store : Store) (canonical from_cur to_cur : String)
    (item : RateRecord) (rs : List (String × ℚ)) (f t : ℚ)
    (hfrom : upcase from_cur = from_cur) (hto : upcase to_cur = to_cur)
    (hnd : directResult (get_rates_for_base store from_cur) from_cur to_cur
      = none)
    (hget : get_rates_for_base store canonical = some item)
    (hrates : item.rates = some rs)
    (hf : lookupRate rs from_cur = some f)
    (ht : lookupRate rs to_cur = some t) :
    (f ≠ 0 → compute_rate store canonical from_cur to_cur =
      some ⟨t / f, item.asOf, "cross", canonical⟩)
    ∧ (f = 0 → compute_rate store canonical from_cur to_cur =
      inverseResult (get_rates_for_base store to_cur) from_cur to_cur) := by
  constructor <;> intro hf0 <;> unfold compute_rate <;>
    simp only [hfrom, hto, hnd] <;>
    simp [crossResult, hget, hrates, hf, ht, hf0, qdiv_eq]

/-- Witness for C2: only a canonical `USD` record with `EUR ↦ 0.92` and
`GBP ↦ 0.79`; `EUR`→`GBP` resolves to `0.79 / 0.92` by `cross`, and with a
zero `from` entry (`JPY ↦ 0`) `JPY`→`GBP` falls through to inverse (which
also has nothing, so the resolver yields nothing). -/
theorem cross_correctness_witness :
    compute_rate [⟨"USD", some [("EUR", Rat.divInt 92 100),
        ("GBP", Rat.divInt 79 100), ("JPY", 0)], some "ts"⟩]
      "USD" "EUR" "GBP" =
      some ⟨Rat.divInt 79 100 / Rat.divInt 92 100, some "ts", "cross", "USD"⟩
    ∧ compute_rate [⟨"USD", some [("EUR", Rat.divInt 92 100),
        ("GBP", Rat.divInt 79 100), ("JPY", 0)], some "ts"⟩]
      "USD" "JPY" "GBP" =
      inverseResult (get_rates_for_base [⟨"USD",
        some [("EUR", Rat.divInt 92 100), ("GBP", Rat.divInt 79 100),
          ("JPY", 0)], some "ts"⟩] "GBP") "JPY" "GBP" :=
  ⟨(cross_correctness _ _ _ _
      ⟨"USD", some [("EUR", Rat.divInt 92 100), ("GBP", Rat.divInt 79 100),
        ("JPY", 0)], some "ts"⟩
      [("EUR", Rat.divInt 92 100), ("GBP", Rat.divInt 79 100), ("JPY", 0)]
      (Rat.divInt 92 100) (Rat.divInt 79 100)
      (by decide) (by decide) (by decide) (by decide) (by decide)
      (by decide) (by decide)).1 (by decide),
   (cross_correctness _ _ _ _
      ⟨"USD", some [("EUR", Rat.divInt 92 100), ("GBP", Rat.divInt 79 100),
        ("JPY", 0)], some "ts"⟩
      [("EUR", Rat.divInt 92 100), ("GBP", Rat.divInt 79 100), ("JPY", 0)]
      0 (Rat.divInt 79 100)
      (by decide) (by decide) (by decide) (by decide) (by decide)
      (by decide) (by decide)).2 (by decide)⟩

/-- C3: when neither the direct nor the cross strategy succeeds, but the
record for base = `to_cur` maps `from_cur` to `r`, then with `r ≠ 0`
resolution succeeds with rate exactly `1 / r`, provenance `inverse`,
`baseUsed = to_cur`, `asOf` from that record; with `r = 0` the inverse
strategy yields nothing and resolution fails altogether. -/
theorem inverse_correctness (store : Store) (canonical from_cur to_cur : String)
    (item : RateRecord) (rs : List (String × ℚ)) (r : ℚ)
    (hfrom : upcase from_cur = from_cur) (hto : upcase to_cur = to_cur)
    (hnd : directResult (get_rates_for_base store from_cur) from_cur to_cur
      = none)
    (hnc : crossResult (get_rates_for_base store canonical) canonical
      from_cur to_cur = none)
    (hget : get_rates_for_base store to_cur = some item)
    (hrates : item.rates = some rs)
    (hlook : lookupRate rs from_cur = some r) :
    (r ≠ 0 → compute_rate store canonical from_cur to_cur =
      some ⟨1 / r, item.asOf, "inverse", to_cur⟩)
    ∧ (r = 0 → compute_rate store canonical from_cur to_cur = none) := by
  constructor <;> intro hr0 <;> unfold compute_rate <;>
    simp only [hfrom, hto, hnd, hnc] <;>
    simp [inverseResult, hget, hrates, hlook, hr0, qdiv_eq]

/-- Witness for C3: only a `GBP` record with `EUR ↦ 0.855` and `CHF ↦ 0`;
`EUR`→`GBP` resolves to `1 / 0.855` by `inverse`, and `CHF`→`GBP` (whose
stored rate is `0`) resolves to nothing. -/
theorem inverse_correctness_witness :
    compute_rate [⟨"GBP", some [("EUR", Rat.divInt 855 1000), ("CHF", 0)],
        some "ts"⟩] "USD" "EUR" "GBP" =
      some ⟨1 / Rat.divInt 855 1000, some "ts", "inverse", "GBP"⟩
    ∧ compute_rate [⟨"GBP", some [("EUR", Rat.divInt 855 1000), ("CHF", 0)],
        some "ts"⟩] "USD" "CHF" "GBP" = none :=
  ⟨(inverse_correctness _ _ _ _
      ⟨"GBP", some [("EUR", Rat.divInt 855 1000), ("CHF", 0)], some "ts"⟩
      [("EUR", Rat.divInt 855 1000), ("CHF", 0)] (Rat.divInt 855 1000)
      (by decide) (by decide) (by decide) (by decide) (by decide)
      (by decide) (by decide)).1 (by decide),
   (inverse_correctness _ _ _ _
      ⟨"GBP", some [("EUR", Rat.divInt 855 1000), ("CHF", 0)], some "ts"⟩
      [("EUR", Rat.divInt 855 1000), ("CHF", 0)] 0
      (by decide) (by decide) (by decide) (by decide) (by decide)
      (by decide) (by decide)).2 (by decide)⟩

/-- C4: for every store and every valid request with distinct codes, if the
resolver yields nothing then the handler answers the 404 unavailable
response (error plus hint) — in particular it is never a success response
(so no default or zero rate is ever fabricated). -/
theorem unavailable_no_default (f t a : String) (q : ℚ) (store : Store)
    (canonical : String)
    (hlen1 : (upcase f).length = 3) (hlen2 : (upcase t).length = 3)
    (hq : parseDecimal a = some q) (hnn : ¬ q < 0)
    (hne : upcase f ≠ upcase t)
    (hcr : compute_rate store canonical (upcase f) (upcase t) = none) :
    lambda_handler ⟨some f, some t, some a⟩ store canonical =
      .unavailable (unavailMsg (upcase f) (upcase t))
        (unavailHint canonical (upcase f) (upcase t))
    ∧ ∀ p, lambda_handler ⟨some f, some t, some a⟩ store canonical ≠ .ok p := by
  have hf : upcase f ≠ "" := by
    intro h
    rw [h] at hlen1
    simp at hlen1
  have ht : upcase t ≠ "" := by
    intro h
    rw [h] at hlen2
    simp at hlen2
  rcases hT : compute_rateT store canonical (upcase f) (upcase t) with ⟨o, reads⟩
  have ho : o = none := by
    have hfst := compute_rateT_fst store canonical (upcase f) (upcase t)
    rw [hT] at hfst
    simpa [hcr] using hfst
  subst ho
  constructor
  · unfold lambda_handler lambda_handlerT
    simp [hf, ht, hlen1, hlen2, hq, hnn, hne, hT]
  · intro p
    unfold lambda_handler lambda_handlerT
    simp [hf, ht, hlen1, hlen2, hq, hnn, hne, hT]

/-- Witness for C4: empty store, `EUR`→`GBP`, amount `1`: the handler
answers 404 with the hint naming the satisfying record shapes. -/
theorem unavailable_no_default_witness :
    lambda_handler ⟨some "EUR", some "GBP", some "1"⟩ [] "USD" =
      .unavailable (unavailMsg (upcase "EUR") (upcase "GBP"))
        (unavailHint "USD" (upcase "EUR") (upcase "GBP")) :=
  (unavailable_no_default "EUR" "GBP" "1" 1 [] "USD" (by decide) (by decide)
    (by decide) (by decide) (by decide) (by decide)).1

/-- C5: for every valid 3-letter code and parsable non-negative amount, a
request with `from = to` answers 200 with `rate = 1`,
`result = round4 amount`, provenance `identity`, no `asOf`, no `baseUsed` —
and the read trace is empty: no store access, the resolver is never
invoked (the store is universally quantified, so the response is also
independent of it). -/
theorem identity_shortcircuit (c a : String) (q : ℚ) (store : Store)
    (canonical : String)
    (hlen : (upcase c).length = 3)
    (hq : parseDecimal a = some q) (hnn : ¬ q < 0) :
    lambda_handlerT ⟨some c, some c, some a⟩ store canonical =
      (.ok ⟨upcase c, upcase c, q, 1, round4 q, none, "identity", none⟩,
       []) := by
  have hc : upcase c ≠ "" := by
    intro h
    rw [h] at hlen
    simp at hlen
  unfold lambda_handlerT
  simp [hc, hlen, hq, hnn]

/-- Witness for C5: `usd`→`usd` of `2.5` over a non-trivial store answers
`rate = 1`, `result = round4 2.5`, provenance `identity`, reading no key. -/
theorem identity_shortcircuit_witness :
    lambda_handlerT ⟨some "usd", some "usd", some "2.5"⟩
      [⟨"USD", some [("EUR", 55)], none⟩] "EUR" =
      (.ok ⟨upcase "usd", upcase "usd", Rat.divInt 25 10, 1,
        round4 (Rat.divInt 25 10), none, "identity", none⟩, []) :=
  identity_shortcircuit "usd" "2.5" (Rat.divInt 25 10)
    [⟨"USD", some [("EUR", 55)], none⟩] "EUR"
    (by decide) (by decide) (by decide)

/-- C6: the validation ladder, in source order, each case with an empty
read trace (no store access): absent amount or an empty (missing) code
gives `missing_params`; then a code of length ≠ 3 gives
`bad_currency_code`; then an unparsable amount gives `bad_amount`; then a
negative parsed amount gives `negative_amount`. -/
theorem validation_errors (fp tp ap : Option String) (store : Store)
    (canonical : String) :
    ((ap = none ∨ upcase (fp.getD "") = "" ∨ upcase (tp.getD "") = "") →
      lambda_handlerT ⟨fp, tp, ap⟩ store canonical =
        (.validationError .missing_params, []))
    ∧ (∀ a, ap = some a → upcase (fp.getD "") ≠ "" →
        upcase (tp.getD "") ≠ "" →
        ((upcase (fp.getD "")).length ≠ 3 ∨ (upcase (tp.getD "")).length ≠ 3) →
        lambda_handlerT ⟨fp, tp, ap⟩ store canonical =
          (.validationError .bad_currency_code, []))
    ∧ (∀ a, ap = some a → upcase (fp.getD "") ≠ "" →
        upcase (tp.getD "") ≠ "" →
        (upcase (fp.getD "")).length = 3 → (upcase (tp.getD "")).length = 3 →
        parseDecimal a = none →
        lambda_handlerT ⟨fp, tp, ap⟩ store canonical =
          (.validationError .bad_amount, []))
    ∧ (∀ a q, ap = some a → upcase (fp.getD "") ≠ "" →
        upcase (tp.getD "") ≠ "" →
        (upcase (fp.getD "")).length = 3 → (upcase (tp.getD "")).length = 3 →
        parseDecimal a = some q → q < 0 →
        lambda_handlerT ⟨fp, tp, ap⟩ store canonical =
          (.validationError .negative_amount, [])) := by
  refine ⟨?_, ?_, ?_, ?_⟩
  · rintro (rfl | hfe | hte)
    · rfl
    · cases ap with
      | none => rfl
      | some a =>
        unfold lambda_handlerT
        simp [hfe]
    · cases ap with
      | none => rfl
      | some a =>
        unfold lambda_handlerT
        simp [hte]
  · rintro a rfl hfe hte hlen
    unfold lambda_handlerT
    rcases hlen with h | h <;> simp [hfe, hte, h]
  · rintro a rfl hfe hte hl1 hl2 hpd
    unfold lambda_handlerT
    simp [hfe, hte, hl1, hl2, hpd]
  · rintro a q rfl hfe hte hl1 hl2 hpd hq
    unfold lambda_handlerT
    simp [hfe, hte, hl1, hl2, hpd, hq]

/-- Witness for C6, the four examples given in the spec: missing `to` →
`missing_params`; `from = "US"` → `bad_currency_code`; `amount = "abc"` →
`bad_amount`; `amount = "-1"` → `negative_amount`; all without store
access. -/
theorem validation_errors_witness :
    lambda_handlerT ⟨some "USD", none, some "1"⟩ [] "USD" =
      (.validationError .missing_params, [])
    ∧ lambda_handlerT ⟨some "US", some "EUR", some "1"⟩ [] "USD" =
      (.validationError .bad_currency_code, [])
    ∧ lambda_handlerT ⟨some "USD", some "EUR", some "abc"⟩ [] "USD" =
      (.validationError .bad_amount, [])
    ∧ lambda_handlerT ⟨some "USD", some "EUR", some "-1"⟩ [] "USD" =
      (.validationError .negative_amount, []) :=
  ⟨(validation_errors (some "USD") none (some "1") [] "USD").1
      (by decide),
   (validation_errors (some "US") (some "EUR") (some "1") [] "USD").2.1
      "1" rfl (by decide) (by decide) (by decide),
   (validation_errors (some "USD") (some "EUR") (some "abc") [] "USD").2.2.1
      "abc" rfl (by decide) (by decide) (by decide) (by decide) (by decide),
   (validation_errors (some "USD") (some "EUR") (some "-1") [] "USD").2.2.2
      "-1" (-1) rfl (by decide) (by decide) (by decide) (by decide)
      (by decide) (by decide)⟩

theorem round4_mul_den (x : ℚ) : (round4 x * 10000).den = 1 := by
  obtain ⟨m, hm⟩ : ∃ m : ℤ, round4 x * 10000 = (m : ℚ) := by
    unfold round4
    split
    · refine ⟨(Rat.divInt (20000 * x.num + (x.den : Int))
        (2 * (x.den : Int))).floor, ?_⟩
      rw [Rat.divInt_eq_div]
      push_cast
      rw [div_mul_cancel₀]
      norm_num
    · refine ⟨-(Rat.divInt (20000 * (-x.num) + (x.den : Int))
        (2 * (x.den : Int))).floor, ?_⟩
      rw [Rat.divInt_eq_div]
      push_cast
      rw [neg_mul, neg_inj, div_mul_cancel₀]
      norm_num
  rw [hm]
  exact Rat.den_intCast m

theorem round4_tie (k : ℕ) :
    round4 ((2 * (k : ℚ) + 1) / 20000) = ((k : ℚ) + 1) / 10000 := by
  have hx : (0 : ℚ) ≤ (2 * (k : ℚ) + 1) / 20000 := by positivity
  rw [round4_eq_floor _ hx]
  have harg : (2 * (k : ℚ) + 1) / 20000 * 10000 + 1 / 2 = (k : ℚ) + 1 := by
    field_simp
    ring
  rw [harg, show ((k : ℚ) + 1) = (((k : ℤ) + 1 : ℤ) : ℚ) by push_cast; ring,
    Int.floor_intCast]

/-- Every 200 response carries a `rate` and `result` that are values of the
4-digit half-up quantizer: each is `round4` of something, hence an integer
multiple of 1/10⁴. -/
theorem handler_ok_shape (ev : Event) (store : Store) (canonical : String)
    (p : SuccessPayload)
    (h : lambda_handler ev store canonical = .ok p) :
    (p.rate = 1 ∧ ∃ q, p.result = round4 q)
    ∨ (∃ r, p.rate = round4 r ∧ ∃ q, p.result = round4 q) := by
  unfold lambda_handler lambda_handlerT at h
  rcases hev : ev.amountParam with _ | a <;> rw [hev] at h
  · simp at h
  · repeat' split at h
    all_goals try simp at h
    all_goals subst h
    · exact .inl ⟨rfl, _, rfl⟩
    · exact .inr ⟨_, rfl, _, rfl⟩

/-- C7: for every successful conversion (any event, store, canonical base),
the displayed `rate` and `result` are values of the 4-fractional-digit
quantizer (each a `round4` image, with `value·10⁴` an integer), the
quantizer rounds ties half-up — every exact tie `(2k+1)/2·10⁻⁴` goes to
`(k+1)·10⁻⁴`, away from zero, not to even — and in particular
`round4 0.00005 = 0.0001`, not `0`. -/
theorem rounding_law :
    (∀ ev store canonical p, lambda_handler ev store canonical = .ok p →
      ((∃ x, p.rate = round4 x) ∧ (p.rate * 10000).den = 1)
      ∧ ((∃ y, p.result = round4 y) ∧ (p.result * 10000).den = 1))
    ∧ (∀ k : ℕ, round4 ((2 * (k : ℚ) + 1) / 20000) = ((k : ℚ) + 1) / 10000)
    ∧ round4 (5 / 100000) = 1 / 10000 := by
  refine ⟨?_, round4_tie, ?_⟩
  · intro ev store canonical p h
    rcases handler_ok_shape ev store canonical p h with
      ⟨h1, q, h2⟩ | ⟨r, h1, q, h2⟩
    · refine ⟨⟨⟨1, ?_⟩, ?_⟩, ⟨q, h2⟩, ?_⟩
      · rw [h1]
        decide
      · rw [h1, one_mul]
        simp
      · rw [h2]
        exact round4_mul_den q
    · refine ⟨⟨⟨r, h1⟩, ?_⟩, ⟨q, h2⟩, ?_⟩
      · rw [h1]
        exact round4_mul_den r
      · rw [h2]
        exact round4_mul_den q
  · have h := round4_tie 0
    norm_num at h
    rw [show (5 : ℚ) / 100000 = 1 / 20000 by norm_num]
    exact h

/-- Witness for C7: the identity response for `usd`→`usd` of `2.5` has a
quantized rate (`1`) and result (`round4 2.5`). -/
theorem rounding_law_witness :
    ((∃ x, (1 : ℚ) = round4 x) ∧ ((1 : ℚ) * 10000).den = 1)
    ∧ ((∃ y, round4 (Rat.divInt 25 10) = round4 y) ∧
       (round4 (Rat.divInt 25 10) * 10000).den = 1) :=
  rounding_law.1 ⟨some "usd", some "usd", some "2.5"⟩ [] "USD"
    ⟨"USD", "USD", Rat.divInt 25 10, 1, round4 (Rat.divInt 25 10), none,
     "identity", none⟩ (by decide)

/-- C8: for every successful non-identity conversion the handler displays
`rate = round4 r` and `result = round4 (amount * r)` with `r` the unrounded
resolver rate, each rounded independently; and there is a concrete input
(the own example of the spec, `EUR`→`GBP` via cross over `USD` with rates `0.92`/`0.79`,
amount `100`) on which re-rounding the displayed rate times the amount
(`round4 (0.8587 * 100) = 85.87`) differs from the displayed result
(`85.8696`) in the 4th decimal digit. -/
theorem independent_rounding :
    (∀ (f t a : String) (q : ℚ) (store : Store) (canonical : String)
      (ri : RateResolution),
      (upcase f).length = 3 → (upcase t).length = 3 →
      parseDecimal a = some q → ¬ q < 0 → upcase f ≠ upcase t →
      compute_rate store canonical (upcase f) (upcase t) = some ri →
      lambda_handler ⟨some f, some t, some a⟩ store canonical =
        .ok ⟨upcase f, upcase t, q, round4 ri.rate, round4 (q * ri.rate),
             ri.asOf, ri.provenance, some ri.baseUsed⟩)
    ∧ (lambda_handler ⟨some "EUR", some "GBP", some "100"⟩
         [⟨"USD", some [("EUR", Rat.divInt 92 100),
           ("GBP", Rat.divInt 79 100)], some "ts"⟩] "USD" =
         .ok ⟨"EUR", "GBP", 100, Rat.divInt 8587 10000,
              Rat.divInt 858696 10000, some "ts", "cross", some "USD"⟩
       ∧ round4 (Rat.divInt 8587 10000 * 100) ≠ Rat.divInt 858696 10000) := by
  constructor
  · intro f t a q store canonical ri hl1 hl2 hq hnn hne hcr
    have hf : upcase f ≠ "" := by
      intro h
      rw [h] at hl1
      simp at hl1
    have ht : upcase t ≠ "" := by
      intro h
      rw [h] at hl2
      simp at hl2
    rcases hT : compute_rateT store canonical (upcase f) (upcase t) with
      ⟨o, reads⟩
    have ho : o = some ri := by
      have hfst := compute_rateT_fst store canonical (upcase f) (upcase t)
      rw [hT] at hfst
      simpa [hcr] using hfst
    subst ho
    unfold lambda_handler lambda_handlerT
    simp [hf, ht, hl1, hl2, hq, hnn, hne, hT, qmul_eq]
  · refine ⟨by decide, ?_⟩
    rw [← qmul_eq]
    decide

/-- Witness for the universal part of C8: the same cross-rate store, with the
displayed fields spelled as `round4` of the unrounded resolver outputs. -/
theorem independent_rounding_witness :
    lambda_handler ⟨some "EUR", some "GBP", some "100"⟩
      [⟨"USD", some [("EUR", Rat.divInt 92 100), ("GBP", Rat.divInt 79 100)],
        some "ts"⟩] "USD" =
      .ok ⟨upcase "EUR", upcase "GBP", Rat.divInt 100 1,
           round4 (qdiv (Rat.divInt 79 100) (Rat.divInt 92 100)),
           round4 (Rat.divInt 100 1 *
             qdiv (Rat.divInt 79 100) (Rat.divInt 92 100)),
           some "ts", "cross", some "USD"⟩ :=
  independent_rounding.1 "EUR" "GBP" "100" (Rat.divInt 100 1) _ "USD"
    ⟨qdiv (Rat.divInt 79 100) (Rat.divInt 92 100), some "ts", "cross", "USD"⟩
    (by decide) (by decide) (by decide) (by decide) (by decide) (by decide)

theorem lookupRate_mem {rs : List (String × ℚ)} {k : String} {v : ℚ}
    (h : lookupRate rs k = some v) : (k, v) ∈ rs := by
  induction rs with
  | nil => simp [lookupRate] at h
  | cons hd tl ih =>
    rcases hd with ⟨k', v'⟩
    by_cases hk : k' = k
    · subst hk
      simp [lookupRate] at h
      simp [h]
    · rw [lookupRate, if_neg hk] at h
      exact List.mem_cons_of_mem _ (ih h)

theorem get_rates_for_base_mem {store : Store} {b : String}
    {rec : RateRecord} (h : get_rates_for_base store b = some rec) :
    rec ∈ store :=
  List.mem_of_find?_eq_some h

theorem directResult_inv {item : Option RateRecord} {f t : String}
    {res : RateResolution} (h : directResult item f t = some res) :
    ∃ rec rs v, item = some rec ∧ rec.rates = some rs ∧
      lookupRate rs t = some v ∧ res = ⟨v, rec.asOf, "direct", f⟩ := by
  rcases item with _ | rec
  · simp [directResult] at h
  · rcases hr : rec.rates with _ | rs
    · simp [directResult, hr] at h
    · rcases hl : lookupRate rs t with _ | v
      · simp [directResult, hr, hl] at h
      · simp [directResult, hr, hl] at h
        exact ⟨rec, rs, v, rfl, hr, hl, h.symm⟩

theorem crossResult_inv {item : Option RateRecord} {canonical f t : String}
    {res : RateResolution} (h : crossResult item canonical f t = some res) :
    ∃ rec rs fv tv, item = some rec ∧ rec.rates = some rs ∧
      lookupRate rs f = some fv ∧ lookupRate rs t = some tv ∧ fv ≠ 0 ∧
      res = ⟨qdiv tv fv, rec.asOf, "cross", canonical⟩ := by
  rcases item with _ | rec
  · simp [crossResult] at h
  · rcases hr : rec.rates with _ | rs
    · simp [crossResult, hr] at h
    · rcases hlf : lookupRate rs f with _ | fv
      · simp [crossResult, hr, hlf] at h
      · rcases hlt : lookupRate rs t with _ | tv
        · simp [crossResult, hr, hlf, hlt] at h
        · by_cases hf0 : fv = 0
          · simp [crossResult, hr, hlf, hlt, hf0] at h
          · simp [crossResult, hr, hlf, hlt, hf0] at h
            exact ⟨rec, rs, fv, tv, rfl, hr, hlf, hlt, hf0, h.symm⟩

theorem inverseResult_inv {item : Option RateRecord} {f t : String}
    {res : RateResolution} (h : inverseResult item f t = some res) :
    ∃ rec rs r, item = some rec ∧ rec.rates = some rs ∧
      lookupRate rs f = some r ∧ r ≠ 0 ∧
      res = ⟨qdiv 1 r, rec.asOf, "inverse", t⟩ := by
  rcases item with _ | rec
  · simp [inverseResult] at h
  · rcases hr : rec.rates with _ | rs
    · simp [inverseResult, hr] at h
    · rcases hl : lookupRate rs f with _ | r
      · simp [inverseResult, hr, hl] at h
      · by_cases hr0 : r = 0
        · simp [inverseResult, hr, hl, hr0] at h
        · simp [inverseResult, hr, hl, hr0] at h
          exact ⟨rec, rs, r, rfl, hr, hl, hr0, h.symm⟩

theorem compute_rate_inv {store : Store} {canonical f t : String}
    {res : RateResolution} (h : compute_rate store canonical f t = some res) :
    directResult (get_rates_for_base store (upcase f)) (upcase f) (upcase t)
      = some res
    ∨ crossResult (get_rates_for_base store canonical) canonical (upcase f)
      (upcase t) = some res
    ∨ inverseResult (get_rates_for_base store (upcase t)) (upcase f)
      (upcase t) = some res := by
  unfold compute_rate at h
  rcases hd : directResult (get_rates_for_base store (upcase f)) (upcase f)
      (upcase t) with _ | r <;> rw [hd] at h
  · rcases hc : crossResult (get_rates_for_base store canonical) canonical
        (upcase f) (upcase t) with _ | r <;> rw [hc] at h
    · exact .inr (.inr (by simpa using h))
    · simp at h
      subst h
      exact .inr (.inl rfl)
  · simp at h
    subst h
    exact .inl rfl

/-- Every rate value stored in every record of the store is positive. -/
abbrev storeRatesPos (store : Store) : Prop :=
  ∀ rec ∈ store, ∀ pr ∈ rec.rates.getD [], (0 : ℚ) < pr.2

/-- C9 (amended): the output rate of the resolver is strictly positive for all
three provenances *provided every stored rate value is positive* — the
code returns stored values verbatim (direct), divides two stored values
(cross), or reciprocates one (inverse), and never checks their sign, so
positivity holds only under this assumption on the store (see the
counterexample for a store holding a zero rate). -/
theorem rate_positive (store : Store) (canonical f t : String)
    (hpos : storeRatesPos store) (res : RateResolution)
    (h : compute_rate store canonical f t = some res) :
    0 < res.rate := by
  rcases compute_rate_inv h with hd | hc | hi
  · obtain ⟨rec, rs, v, hit, hr, hl, rfl⟩ := directResult_inv hd
    have hv := hpos rec (get_rates_for_base_mem hit) (upcase t, v)
      (by rw [hr]; exact lookupRate_mem hl)
    exact hv
  · obtain ⟨rec, rs, fv, tv, hit, hr, hlf, hlt, hf0, rfl⟩ := crossResult_inv hc
    have hfv := hpos rec (get_rates_for_base_mem hit) (upcase f, fv)
      (by rw [hr]; exact lookupRate_mem hlf)
    have htv := hpos rec (get_rates_for_base_mem hit) (upcase t, tv)
      (by rw [hr]; exact lookupRate_mem hlt)
    show 0 < qdiv tv fv
    rw [qdiv_eq]
    exact div_pos htv hfv
  · obtain ⟨rec, rs, r, hit, hr, hl, hr0, rfl⟩ := inverseResult_inv hi
    have hrv := hpos rec (get_rates_for_base_mem hit) (upcase f, r)
      (by rw [hr]; exact lookupRate_mem hl)
    show 0 < qdiv 1 r
    rw [qdiv_eq]
    positivity

/-- Counterexample to C9 as stated: a store may hold a zero rate (nothing
in the code forbids it), and then resolution succeeds — provenance
`direct` — with rate `0`, which is not strictly positive. -/
theorem rate_positive_counterexample :
    compute_rate [⟨"USD", some [("EUR", 0)], none⟩] "USD" "USD" "EUR" =
      some ⟨0, none, "direct", "USD"⟩
    ∧ ¬ (0 : ℚ) < 0 :=
  ⟨by decide, by decide⟩

/-- Witness for C9: on an all-positive store, the resolved `USD`→`EUR`
rate (`0.92`, direct) is positive. -/
theorem rate_positive_witness :
    compute_rate [⟨"USD", some [("EUR", Rat.divInt 92 100)], none⟩]
      "USD" "USD" "EUR" =
      some ⟨Rat.divInt 92 100, none, "direct", "USD"⟩
    ∧ (0 : ℚ) <
      (RateResolution.mk (Rat.divInt 92 100) none "direct" "USD").rate :=
  ⟨by decide,
   rate_positive [⟨"USD", some [("EUR", Rat.divInt 92 100)], none⟩]
     "USD" "USD" "EUR" (by decide)
     ⟨Rat.divInt 92 100, none, "direct", "USD"⟩ (by decide)⟩

theorem compute_rateT_reads_le (store : Store)
    (canonical from_cur to_cur : String) :
    (compute_rateT store canonical from_cur to_cur).2.length ≤ 3 := by
  unfold compute_rateT
  cases hd : directResult (get_rates_for_base store (upcase from_cur))
      (upcase from_cur) (upcase to_cur) with
  | some res => simp [hd]
  | none =>
    cases hc : crossResult (get_rates_for_base store canonical) canonical
        (upcase from_cur) (upcase to_cur) with
    | some res => simp [hd, hc]
    | none => simp [hd, hc]

/-- C10 (amended): processing one conversion request performs at most
THREE point reads of the store, one per strategy, never a scan — the
trace of `get_item` keys has length ≤ 3 for every event and store. (The
claimed bound of two fails: a request resolved by the inverse strategy —
or not resolved at all — reads the `from`, canonical and `to` keys, three
point reads; see the counterexample.) -/
theorem reads_at_most_three (ev : Event) (store : Store)
    (canonical : String) :
    (lambda_handlerT ev store canonical).2.length ≤ 3 := by
  unfold lambda_handlerT
  rcases hev : ev.amountParam with _ | a
  · simp
  · by_cases h1 : upcase (ev.fromParam.getD "") = "" ∨
      upcase (ev.toParam.getD "") = ""
    · simp [h1]
    · simp only [if_neg h1]
      by_cases h2 : ¬(upcase (ev.fromParam.getD "")).length = 3 ∨
        ¬(upcase (ev.toParam.getD "")).length = 3
      · simp [h2]
      · simp only [if_neg h2]
        rcases hpd : parseDecimal a with _ | q
        · simp
        · by_cases h3 : q < 0
          · simp [h3]
          · simp only [if_neg h3]
            by_cases h4 : upcase (ev.fromParam.getD "") =
              upcase (ev.toParam.getD "")
            · simp [h4]
            · simp only [if_neg h4]
              rcases hcr : compute_rateT store canonical
                  (upcase (ev.fromParam.getD ""))
                  (upcase (ev.toParam.getD "")) with ⟨o, reads⟩
              have hlen : reads.length ≤ 3 := by
                have := compute_rateT_reads_le store canonical
                  (upcase (ev.fromParam.getD "")) (upcase (ev.toParam.getD ""))
                rw [hcr] at this
                exact this
              rcases o with _ | ri <;> simpa using hlen

/-- Counterexample to C10 as stated: with an empty store, the request
`EUR`→`GBP` walks all three strategies and reads three keys — more than
two. -/
theorem reads_at_most_three_counterexample :
    (lambda_handlerT ⟨some "EUR", some "GBP", some "1"⟩ [] "USD").2 =
      ["EUR", "USD", "GBP"]
    ∧ ¬ ((lambda_handlerT ⟨some "EUR", some "GBP", some "1"⟩ [] "USD").2.length
        ≤ 2) :=
  ⟨by decide, by decide⟩

end CurrencyConverter
